import Mathlib

/-!
Verification development for the cover-tree construction repository
(`ctree/itree.hpp`, `src/main.cpp`, `src/main_mpi.cpp`).

The drivers and the insert-tree are translated into executable Lean
definitions.  The `int64_t` index type is modelled by `Int`, and the
floating-point `Real` type (a `float`/`double` chosen at build time) is
modelled by `ℚ`; the properties below concern order comparisons and control
flow, not rounding.  The distance kernel (`L2Distance`, declared in headers
outside the translated sources) is passed as an explicit function parameter,
mirroring the `Distance` template parameter of the C++ code, and the
externally defined cover-tree operations used by `main`
(`CoverTree::build`, `CoverTree::is_correct`, `CoverTree::point_query`) are
abstracted as oracle parameters, since their headers are not part of the
translated sources.
-/

namespace Ipdps

/-- Model of the C++ `Index` type (`int64_t`) used for point and vertex ids. -/
abbrev Index := Int

section EpsilonGraphDefs

variable {P : Type} [Inhabited P]

/-- The brute-force neighbor list computed by the inner loop of
`graph_is_correct` in `src/main.cpp` (lines 188-192): the indices `j` with
`distance(points[i], points[j]) <= radius`, visited in increasing order of
`j` and pushed onto `neighbors`. -/
def bruteForceNeighbors (dist : P → P → ℚ) (points : List P) (radius : ℚ)
    (i : Nat) : List Index :=
  ((List.range points.length).filter
    (fun j => decide (dist (points.getD i default) (points.getD j default) ≤ radius))).map
    Int.ofNat

/-- Translation of `graph_is_correct` from `src/main.cpp` (lines 176-202):
for every point index `i`, the row `graph[i]` is compared against the
brute-force neighbor list, first by size and then by `std::is_permutation`;
the overall result is the conjunction of the per-row checks (the
`if (!correct) continue` early exit does not change the value). -/
def graph_is_correct (dist : P → P → ℚ) (points : List P) (radius : ℚ)
    (graph : List (List Index)) : Bool :=
  (List.range points.length).all fun i =>
    (bruteForceNeighbors dist points radius i).length == (graph.getD i []).length &&
      (bruteForceNeighbors dist points radius i).isPerm (graph.getD i [])

/-- Specification-side statement for claim C1, following the spec's words:
every row of `graph` is a permutation of the exact fixed-radius neighbor set
of its point. -/
def graph_matches_bruteforce (dist : P → P → ℚ) (points : List P) (radius : ℚ)
    (graph : List (List Index)) : Prop :=
  ∀ i, i < points.length →
    (graph.getD i []).Perm (bruteForceNeighbors dist points radius i)

/-- Property stated by claim C10: for every point index `i`, the brute-force
reference list for `i` contains `i` itself, and therefore `graph_is_correct`
accepts `graph` only if row `i` contains the self-loop entry `i`. -/
def self_loops_required (dist : P → P → ℚ) (points : List P) (radius : ℚ)
    (graph : List (List Index)) : Prop :=
  ∀ i, i < points.length →
    (i : Index) ∈ bruteForceNeighbors dist points radius i ∧
      (graph_is_correct dist points radius graph = true →
        (i : Index) ∈ graph.getD i [])

end EpsilonGraphDefs

section ItreeDefs

variable {Item : Type}

/-- The insert-tree state from `ctree/itree.hpp`: the parallel arrays
`vertices`, `parents`, `children` and `levels`, plus the incrementally
maintained `nlevels` counter.  Ids are list positions; the no-parent
sentinel is any negative `Index`. -/
structure InsertTree (Item : Type) where
  vertices : List Item := []
  parents : List Index := []
  children : List (List Index) := []
  levels : List Index := []
  nlevels : Index := 0

/-- Translation of `InsertTree::add_vertex` (`ctree/itree.hpp` lines 1-23):
record the new vertex id, push `item`, `parent` and an empty child list;
for a non-negative parent, read the parent's level and append the new id to
the parent's child list; update `nlevels` with `max(level+1, nlevels)` and
push the new level.  Returns the updated tree and the new id. -/
def InsertTree.add_vertex (t : InsertTree Item) (item : Item) (parent : Index) :
    InsertTree Item × Index :=
  let vertex : Index := t.vertices.length
  let vertices := t.vertices ++ [item]
  let parents := t.parents ++ [parent]
  let children := t.children ++ [[]]
  if 0 ≤ parent then
    let level := t.levels.getD parent.toNat 0 + 1
    ({ vertices := vertices, parents := parents,
       children := children.set parent.toNat (children.getD parent.toNat [] ++ [vertex]),
       levels := t.levels ++ [level],
       nlevels := max (level + 1) t.nlevels }, vertex)
  else
    ({ vertices := vertices, parents := parents, children := children,
       levels := t.levels ++ [0],
       nlevels := max (0 + 1) t.nlevels }, vertex)

/-- Translation of `InsertTree::clear` (`ctree/itree.hpp` lines 33-40): the
source clears `vertices`, `levels` and `children` and zeroes `nlevels`; it
does not touch `parents`. -/
def InsertTree.clear (t : InsertTree Item) : InsertTree Item :=
  { t with vertices := [], levels := [], children := [], nlevels := 0 }

/-- Replay of a sequence of `add_vertex` calls (item and parent id per call),
discarding the returned ids. -/
def applyOps (t : InsertTree Item) : List (Item × Index) → InsertTree Item
  | [] => t
  | op :: rest => applyOps (t.add_vertex op.1 op.2).1 rest

/-- Recomputation of the level counter from scratch: the fold of
`level(v) + 1` under `max`, starting at `0`; for a non-empty tree with
non-negative levels this is `1 + max_v level(v)`, and for the empty tree it
is `0`. -/
def nlevelsSpec (levels : List Index) : Index :=
  (levels.map (fun x => x + 1)).foldr max 0

/-- The incremental `nlevels` counter agrees with the recomputed value. -/
def nlevelsInv (t : InsertTree Item) : Prop :=
  t.nlevels = nlevelsSpec t.levels

/-- Property stated by claim C2 for one `add_vertex` call: exactly one
vertex is appended; the returned id is the vertex count before the call; a
negative parent yields level `0` and leaves every existing child list
unchanged (the new vertex is a child of no one); a non-negative parent has
the new id appended to its child list, every other child list unchanged,
and the new vertex's level is the parent's level plus one. -/
def add_vertex_spec (t : InsertTree Item) (item : Item) (parent : Index) : Prop :=
  (t.add_vertex item parent).1.vertices = t.vertices ++ [item] ∧
  (t.add_vertex item parent).2 = (t.vertices.length : Index) ∧
  (parent < 0 →
    (t.add_vertex item parent).1.levels = t.levels ++ [0] ∧
    (t.add_vertex item parent).1.children = t.children ++ [[]]) ∧
  (0 ≤ parent →
    (t.add_vertex item parent).1.levels =
      t.levels ++ [t.levels.getD parent.toNat 0 + 1] ∧
    (t.add_vertex item parent).1.children.getD parent.toNat [] =
      t.children.getD parent.toNat [] ++ [(t.add_vertex item parent).2] ∧
    ∀ k, k ≠ parent.toNat →
      (t.add_vertex item parent).1.children.getD k [] =
        (t.children ++ [[]]).getD k [])

end ItreeDefs

section DriverDefs

/-- A lexed command-line token as consumed by the `getopt` loop of
`parse_arguments` in `src/main.cpp` (lines 138-152).  Known options carry
their already converted argument (the result of `atof`/`atoi`); `opte` is
`-e`, which the option string `"r:S:s:t:e:l:o:TAGvh"` accepts with an
argument although no branch of the loop handles it; `unknown` is a flag
outside the option string, for which `getopt` returns a character that
matches no branch; `operand` is a non-option argument. -/
inductive Arg where
  | optR (x : ℚ)
  | optS (x : ℚ)
  | optsw (x : ℚ)
  | optl (n : Index)
  | optt (n : Index)
  | opto (s : String)
  | opte (s : String)
  | optA
  | optT
  | optG
  | optv
  | opth
  | unknown
  | operand (s : String)
deriving DecidableEq

/-- Whether a token is an unknown flag. -/
def Arg.isUnknown : Arg → Bool
  | .unknown => true
  | _ => false

/-- Whether a token is a `-r` option. -/
def Arg.isOptR : Arg → Bool
  | .optR _ => true
  | _ => false

/-- Whether the argument list contains a `-r` option. -/
def hasOptR (args : List Arg) : Bool :=
  args.any Arg.isOptR

/-- The driver configuration of `src/main.cpp`: the file-scope globals set
by `parse_arguments`.  Field defaults are the globals' initializers
(lines 41-54). -/
structure Config where
  radius : ℚ := 0
  split_ratio : ℚ := 1 / 2
  switch_size : ℚ := 0
  min_hub_size : Index := 10
  nthreads : Index := 1
  tree_fname : Option String := none
  level_synch : Bool := true
  verify_tree : Bool := false
  verify_graph : Bool := false
  verbose : Bool := false
  build_graph : Bool := false
  fname : String := ""
deriving DecidableEq

/-- Outcome of `parse_arguments`: the process either exits inside `usage`
with the given code, or parsing finishes and the driver continues with the
resulting configuration. -/
inductive ParseResult where
  | exited (code : Index)
  | continued (cfg : Config)
deriving DecidableEq

/-- The `getopt` loop and epilogue of `parse_arguments` (`src/main.cpp`
lines 138-161): process tokens left to right, updating the configuration for
the known options; `-h` calls `usage(0)` and exits; `-e`, unknown flags and
(at this stage) operands match no branch and change nothing, operands being
collected for `optind`.  After the loop, a missing operand prints the
`missing argument(s)` diagnostic and calls `usage(1)`; otherwise `fname`
becomes the first operand and `build_graph` is set to `radius > 0`. -/
def parseLoop : List Arg → Config → List String → ParseResult
  | [], cfg, ops =>
    match ops with
    | [] => .exited 1
    | f :: _ => .continued { cfg with fname := f, build_graph := decide (0 < cfg.radius) }
  | a :: rest, cfg, ops =>
    match a with
    | .optR x => parseLoop rest { cfg with radius := x } ops
    | .optS x => parseLoop rest { cfg with split_ratio := x } ops
    | .optsw x => parseLoop rest { cfg with switch_size := x } ops
    | .optl n => parseLoop rest { cfg with min_hub_size := n } ops
    | .optt n => parseLoop rest { cfg with nthreads := n } ops
    | .opto s => parseLoop rest { cfg with tree_fname := some s } ops
    | .opte _ => parseLoop rest cfg ops
    | .optA => parseLoop rest { cfg with level_synch := false } ops
    | .optT => parseLoop rest { cfg with verify_tree := true } ops
    | .optG => parseLoop rest { cfg with verify_graph := true } ops
    | .optv => parseLoop rest { cfg with verbose := true } ops
    | .opth => .exited 0
    | .unknown => parseLoop rest cfg ops
    | .operand s => parseLoop rest cfg (ops ++ [s])

/-- Translation of `parse_arguments` (`src/main.cpp` lines 119-174), started
on the default global configuration with no operands seen. -/
def parse_arguments (args : List Arg) : ParseResult :=
  parseLoop args {} []

/-- Whether `parse_arguments` returns to `main` (instead of exiting). -/
def parse_continues (args : List Arg) : Bool :=
  match parse_arguments args with
  | .continued _ => true
  | .exited _ => false

/-- Results of the externally defined cover-tree operations used by `main`:
`CoverTree::is_correct` (line 82) and `CoverTree::point_query` (line 98).
Their implementations live in headers that are not part of the translated
sources, so they are abstracted as run parameters. -/
structure BuildOracle where
  treeCorrect : Bool
  query : Nat → List Index

/-- Observable effects of a run of `main` after a successful parse: the
returned exit code, the point ids passed to `point_query`, every file
written as a (name, content) pair, and the verification report lines. -/
structure RunEffects where
  exitCode : Index
  queries : List Nat
  files : List (String × String)
  log : List String
deriving DecidableEq

/-- The verification report line printed at `src/main.cpp` line 85. -/
def treeLine (ok : Bool) : String :=
  if ok then "cover tree PASSED verification" else "cover tree FAILED verification"

/-- The verification report line printed at `src/main.cpp` line 112. -/
def graphLine (ok : Bool) : String :=
  if ok then "epsilon graph PASSED verification" else "epsilon graph FAILED verification"

/-- Translation of the body of `main` (`src/main.cpp` lines 59-117) after
`parse_arguments` and the point read: build the tree (external), verify it
when `verify_tree` is set; when `build_graph` is set, query every point id
against the tree and, when `verify_graph` is set, check the collected rows
with `graph_is_correct`.  `main` returns `0` on every path and writes no
file on any path; the parsed `tree_fname` is never read. -/
def runMain {P : Type} [Inhabited P] (dist : P → P → ℚ) (cfg : Config)
    (points : List P) (orc : BuildOracle) : RunEffects :=
  let tlog := if cfg.verify_tree then [treeLine orc.treeCorrect] else []
  if cfg.build_graph then
    let ids := List.range points.length
    let graph := ids.map orc.query
    let glog :=
      if cfg.verify_graph then
        [graphLine (graph_is_correct dist points cfg.radius graph)]
      else []
    { exitCode := 0, queries := ids, files := [], log := tlog ++ glog }
  else
    { exitCode := 0, queries := [], files := [], log := tlog }

/-- Property stated by claim C6: the graph phase is gated exactly by a
positive parsed radius.  Given the configuration produced by
`parse_arguments` for `args`: `build_graph` holds iff `radius > 0`; when no
`-r` occurs in `args` the radius keeps its default `0` and the graph phase
is disabled; and a disabled graph phase issues no point queries in `main`. -/
def radius_gates_graph_phase {P : Type} [Inhabited P] (dist : P → P → ℚ)
    (args : List Arg) (cfg : Config) (points : List P) (orc : BuildOracle) : Prop :=
  (cfg.build_graph = true ↔ 0 < cfg.radius) ∧
  (hasOptR args = false → cfg.radius = 0 ∧ cfg.build_graph = false) ∧
  (cfg.build_graph = false → (runMain dist cfg points orc).queries = [])

/-- Property stated by claim C7: every run of `main` returns exit code `0`;
a requested verification reports its outcome only through a `PASSED` or
`FAILED` line in the log, never through the exit code. -/
def verification_reported_in_log_only {P : Type} [Inhabited P]
    (dist : P → P → ℚ) (cfg : Config) (points : List P) (orc : BuildOracle) : Prop :=
  (runMain dist cfg points orc).exitCode = 0 ∧
  (cfg.verify_tree = true →
    treeLine orc.treeCorrect ∈ (runMain dist cfg points orc).log) ∧
  (cfg.build_graph = true → cfg.verify_graph = true →
    graphLine (graph_is_correct dist points cfg.radius
        ((List.range points.length).map orc.query))
      ∈ (runMain dist cfg points orc).log)

end DriverDefs

/-! ## Helper lemmas -/

theorem graph_is_correct_eq_true_iff {P : Type} [Inhabited P]
    (dist : P → P → ℚ) (points : List P) (radius : ℚ)
    (graph : List (List Index)) :
    graph_is_correct dist points radius graph = true ↔
      graph_matches_bruteforce dist points radius graph := by
  unfold graph_is_correct graph_matches_bruteforce
  rw [List.all_eq_true]
  constructor
  · intro h i hi
    have hrow := h i (List.mem_range.mpr hi)
    rw [Bool.and_eq_true, List.isPerm_iff] at hrow
    exact hrow.2.symm
  · intro h i hi
    have hperm := (h i (List.mem_range.mp hi)).symm
    rw [Bool.and_eq_true, List.isPerm_iff]
    exact ⟨by rw [beq_iff_eq, hperm.length_eq], hperm⟩

theorem getD_set_self {α : Type} (l : List α) (n : Nat) (a d : α)
    (h : n < l.length) : (l.set n a).getD n d = a := by
  induction l generalizing n with
  | nil => simp at h
  | cons x xs ih =>
    cases n with
    | zero => rfl
    | succ m => simpa using ih m (by simpa using h)

theorem getD_set_of_ne {α : Type} (l : List α) (n k : Nat) (a d : α)
    (h : k ≠ n) : (l.set n a).getD k d = l.getD k d := by
  induction l generalizing n k with
  | nil => rfl
  | cons x xs ih =>
    cases n with
    | zero =>
      cases k with
      | zero => exact absurd rfl h
      | succ m => rfl
    | succ m =>
      cases k with
      | zero => rfl
      | succ j => simpa using ih m j (fun he => h (by rw [he]))

theorem getD_append_left {α : Type} (l l' : List α) (n : Nat) (d : α)
    (h : n < l.length) : (l ++ l').getD n d = l.getD n d := by
  induction l generalizing n with
  | nil => simp at h
  | cons x xs ih =>
    cases n with
    | zero => rfl
    | succ m => simpa using ih m (by simpa using h)

theorem add_vertex_of_nonneg {Item : Type} (t : InsertTree Item) (item : Item)
    (parent : Index) (hp : 0 ≤ parent) :
    t.add_vertex item parent =
      ({ vertices := t.vertices ++ [item], parents := t.parents ++ [parent],
         children := (t.children ++ [[]]).set parent.toNat
           ((t.children ++ [[]]).getD parent.toNat [] ++ [(t.vertices.length : Index)]),
         levels := t.levels ++ [t.levels.getD parent.toNat 0 + 1],
         nlevels := max (t.levels.getD parent.toNat 0 + 1 + 1) t.nlevels },
       (t.vertices.length : Index)) := by
  simp [InsertTree.add_vertex, hp]

theorem add_vertex_of_neg {Item : Type} (t : InsertTree Item) (item : Item)
    (parent : Index) (hp : parent < 0) :
    t.add_vertex item parent =
      ({ vertices := t.vertices ++ [item], parents := t.parents ++ [parent],
         children := t.children ++ [[]],
         levels := t.levels ++ [0],
         nlevels := max 1 t.nlevels }, (t.vertices.length : Index)) := by
  simp [InsertTree.add_vertex, not_le.mpr hp]

theorem foldr_max_append_singleton (l : List Index) (x c : Index) :
    (l ++ [x]).foldr max c = max (l.foldr max c) x := by
  induction l with
  | nil => simpa using max_comm x c
  | cons a as ih =>
    simp only [List.cons_append, List.foldr_cons, ih]
    rw [← max_assoc]

theorem nlevelsSpec_append (l : List Index) (x : Index) :
    nlevelsSpec (l ++ [x]) = max (nlevelsSpec l) (x + 1) := by
  unfold nlevelsSpec
  rw [List.map_append]
  simpa using foldr_max_append_singleton (l.map (fun y => y + 1)) (x + 1) 0

theorem nlevelsInv_add_vertex {Item : Type} (t : InsertTree Item) (item : Item)
    (parent : Index) (h : nlevelsInv t) :
    nlevelsInv (t.add_vertex item parent).1 := by
  unfold nlevelsInv at h ⊢
  by_cases hp : 0 ≤ parent
  · rw [add_vertex_of_nonneg t item parent hp]
    show max (t.levels.getD parent.toNat 0 + 1 + 1) t.nlevels =
      nlevelsSpec (t.levels ++ [t.levels.getD parent.toNat 0 + 1])
    rw [nlevelsSpec_append, h, max_comm]
  · rw [add_vertex_of_neg t item parent (not_le.mp hp)]
    show max 1 t.nlevels = nlevelsSpec (t.levels ++ [0])
    rw [nlevelsSpec_append, h, max_comm]
    norm_num

theorem nlevelsInv_applyOps {Item : Type} (ops : List (Item × Index))
    (t : InsertTree Item) (h : nlevelsInv t) : nlevelsInv (applyOps t ops) := by
  induction ops generalizing t with
  | nil => exact h
  | cons op rest ih => exact ih _ (nlevelsInv_add_vertex t op.1 op.2 h)

theorem parseLoop_filter_unknown (args : List Arg) (cfg : Config)
    (ops : List String) :
    parseLoop (args.filter (fun a => ! a.isUnknown)) cfg ops =
      parseLoop args cfg ops := by
  induction args generalizing cfg ops with
  | nil => rfl
  | cons a rest ih => cases a <;> first | rfl | exact ih _ _

theorem parseLoop_continued_build_graph (args : List Arg) :
    ∀ (cfg c : Config) (ops : List String),
      parseLoop args cfg ops = .continued c →
      c.build_graph = decide (0 < c.radius) := by
  induction args with
  | nil =>
    intro cfg c ops h
    cases ops with
    | nil => cases h
    | cons f fs => cases h; rfl
  | cons a rest ih =>
    intro cfg c ops h
    cases a <;> first | exact ih _ _ _ h | cases h

theorem parseLoop_continued_radius (args : List Arg) :
    ∀ (cfg c : Config) (ops : List String), hasOptR args = false →
      parseLoop args cfg ops = .continued c → c.radius = cfg.radius := by
  induction args with
  | nil =>
    intro cfg c ops _ h
    cases ops with
    | nil => cases h
    | cons f fs => cases h; rfl
  | cons a rest ih =>
    intro cfg c ops hr h
    rw [hasOptR, List.any_cons, Bool.or_eq_false_iff] at hr
    cases a
    case optR x => exact absurd hr.1 (by simp [Arg.isOptR])
    all_goals first | exact (ih _ _ _ hr.2 h).trans rfl | cases h

theorem exists_operand_of_cons {a : Arg} {rest : List Arg}
    (hne : ∀ s, a ≠ Arg.operand s) (h : ∃ s, Arg.operand s ∈ a :: rest) :
    ∃ s, Arg.operand s ∈ rest := by
  obtain ⟨s, hs⟩ := h
  rcases List.mem_cons.mp hs with he | hm
  · exact absurd he.symm (hne s)
  · exact ⟨s, hm⟩

theorem parseLoop_continues (args : List Arg) :
    ∀ (cfg : Config) (ops : List String), Arg.opth ∉ args →
      (ops ≠ [] ∨ ∃ s, Arg.operand s ∈ args) →
      ∃ c, parseLoop args cfg ops = .continued c := by
  induction args with
  | nil =>
    intro cfg ops _ hop
    cases ops with
    | nil =>
      rcases hop with h | ⟨s, hs⟩
      · exact absurd rfl h
      · cases hs
    | cons f fs => exact ⟨_, rfl⟩
  | cons a rest ih =>
    intro cfg ops hh hop
    have hh' : Arg.opth ∉ rest := fun hm => hh (List.mem_cons_of_mem _ hm)
    cases a
    case opth => exact absurd (List.mem_cons_self _ _) hh
    case operand s => exact ih _ (ops ++ [s]) hh' (Or.inl (by simp))
    all_goals
      exact ih _ _ hh' (hop.imp id (exists_operand_of_cons (fun s h => by cases h)))

/-! ## Claim theorems -/

/-- C1: for every point array, radius and adjacency list with one row per
point, `graph_is_correct` returns `true` if and only if every row is a
permutation of the brute-force fixed-radius neighbor set of its point. -/
theorem c1_graph_is_correct_exact {P : Type} [Inhabited P] (dist : P → P → ℚ)
    (points : List P) (radius : ℚ) (graph : List (List Index))
    (hlen : graph.length = points.length) :
    graph_is_correct dist points radius graph = true ↔
      graph_matches_bruteforce dist points radius graph :=
  graph_is_correct_eq_true_iff dist points radius graph

theorem c1_witness :
    ([[(0 : Index)], [1, 0]].length = [(0 : ℚ), 10].length) ∧
    (graph_is_correct (fun p q : ℚ => |p - q|) [(0 : ℚ), 10] 1 [[0], [1, 0]] = true ↔
      graph_matches_bruteforce (fun p q : ℚ => |p - q|) [(0 : ℚ), 10] 1 [[0], [1, 0]]) :=
  ⟨by decide, c1_graph_is_correct_exact (fun p q : ℚ => |p - q|) [0, 10] 1 [[0], [1, 0]]
    (by decide)⟩

/-- C10: when the distance is reflexive (`d(p,p) = 0`, as the spec requires
of the metric) and the radius is non-negative, every point's brute-force
neighbor set contains the point itself, so the `-G` verification accepts a
graph only if every row carries a self-loop. -/
theorem c10_self_loops {P : Type} [Inhabited P] (dist : P → P → ℚ)
    (points : List P) (radius : ℚ) (graph : List (List Index))
    (hd : ∀ p, dist p p = 0) (hr : 0 ≤ radius) :
    self_loops_required dist points radius graph := by
  intro i hi
  have hmem : (i : Index) ∈ bruteForceNeighbors dist points radius i := by
    unfold bruteForceNeighbors
    simp only [List.mem_map, List.mem_filter, List.mem_range, decide_eq_true_eq]
    exact ⟨i, ⟨hi, by rw [hd]; exact hr⟩, rfl⟩
  refine ⟨hmem, fun hok => ?_⟩
  have hperm := (graph_is_correct_eq_true_iff dist points radius graph).mp hok i hi
  exact hperm.mem_iff.mpr hmem

theorem c10_witness :
    ((0 : ℚ) ≤ 1) ∧
    self_loops_required (fun p q : ℚ => |p - q|) [(0 : ℚ), 10] 1 [[0], [1, 0]] :=
  ⟨by norm_num,
    c10_self_loops (fun p q : ℚ => |p - q|) [0, 10] 1 [[0], [1, 0]]
      (fun p => by simp) (by norm_num)⟩

/-- C2: for every tree state and item, `add_vertex(item, parent)` with a
valid parent appends exactly one vertex and returns the previous vertex
count as the new id; a negative (sentinel) parent receives level `0` and is
recorded as a child of no vertex, and otherwise the new id is appended to
the parent's child list and the new level is the parent's level plus one. -/
theorem c2_add_vertex {Item : Type} (t : InsertTree Item) (item : Item)
    (parent : Index) (hv : 0 ≤ parent → parent.toNat < t.children.length) :
    add_vertex_spec t item parent := by
  by_cases hp : 0 ≤ parent
  · have hlt : parent.toNat < t.children.length := hv hp
    have hlt' : parent.toNat < (t.children ++ [([] : List Index)]).length := by
      simp only [List.length_append, List.length_cons, List.length_nil]
      omega
    unfold add_vertex_spec
    rw [add_vertex_of_nonneg t item parent hp]
    refine ⟨rfl, rfl, fun hneg => absurd hp (not_le.mpr hneg), fun _ => ⟨rfl, ?_, ?_⟩⟩
    · show ((t.children ++ [[]]).set parent.toNat _).getD parent.toNat [] = _
      rw [getD_set_self _ _ _ _ hlt', getD_append_left _ _ _ _ hlt]
    · intro k hk
      exact getD_set_of_ne _ _ _ _ _ hk
  · unfold add_vertex_spec
    rw [add_vertex_of_neg t item parent (not_le.mp hp)]
    exact ⟨rfl, rfl, fun _ => ⟨rfl, rfl⟩, fun h => absurd h hp⟩

theorem c2_witness :
    ((0 : Index) ≤ 0 → (0 : Index).toNat <
      ((({} : InsertTree Nat).add_vertex 7 (-1)).1).children.length) ∧
    add_vertex_spec ((({} : InsertTree Nat).add_vertex 7 (-1)).1) 8 0 :=
  ⟨by decide, c2_add_vertex ((({} : InsertTree Nat).add_vertex 7 (-1)).1) 8 0 (by decide)⟩

/-- C8: starting from a cleared tree, after any sequence of `add_vertex`
calls the incrementally maintained `nlevels` equals the recomputed value
(the fold of `level + 1` under `max`, i.e. one more than the maximum level
present, and `0` for the empty tree); `clear` itself resets it to `0`. -/
theorem c8_nlevels_incremental {Item : Type} (t : InsertTree Item)
    (ops : List (Item × Index)) :
    (InsertTree.clear t).nlevels = 0 ∧
      nlevelsInv (applyOps (InsertTree.clear t) ops) :=
  ⟨rfl, nlevelsInv_applyOps ops _ rfl⟩

/-- C9 evaluated at the failing input: `clear` does not reset `parents`
(the source clears only `vertices`, `levels`, `children` and `nlevels`), so
after one `add_vertex` and a `clear` the parents table still has one entry
while the tree has no vertices, and replaying the same `add_vertex` call
after `clear` produces a parents table different from the one obtained on a
fresh tree. -/
theorem c9_clear_retains_parents :
    (({} : InsertTree Nat).add_vertex 7 (-1)).1.clear.parents = [-1] ∧
    (({} : InsertTree Nat).add_vertex 7 (-1)).1.clear.vertices = ([] : List Nat) ∧
    ((({} : InsertTree Nat).add_vertex 7 (-1)).1.clear.add_vertex 7 (-1)).1.parents
      = [-1, -1] ∧
    (({} : InsertTree Nat).add_vertex 7 (-1)).1.parents = [-1] := by
  decide

/-- C3 counterexample: an invocation containing a flag outside the
documented option set together with a filename does not exit; the `getopt`
loop of `parse_arguments` has no branch for the `?` return value, so the
unknown flag is skipped and parsing continues into the build with the
default configuration. -/
theorem c3_counterexample :
    parse_arguments [Arg.unknown, Arg.operand "f"] =
      ParseResult.continued { fname := "f" } := by
  rfl

/-- C3 amended: a flag outside the documented option set is ignored by the
parsing loop; deleting all unknown flags from the argument list never
changes the outcome of `parse_arguments`, so in particular an unknown flag
alone never causes an exit with status 1. -/
theorem c3_unknown_flags_ignored (args : List Arg) :
    parse_arguments (args.filter (fun a => ! a.isUnknown)) = parse_arguments args :=
  parseLoop_filter_unknown args {} []

/-- C4 counterexample: an invocation with `split_ratio = 2` (outside
`(0,1]`), `min_hub_size = 0` (below `1`) and a negative radius together with
`-G` is not rejected: `parse_arguments` performs no range validation and
returns normally, so the run continues into the build. -/
theorem c4_counterexample :
    parse_arguments [Arg.optS 2, Arg.optl 0, Arg.optR (-1), Arg.optG, Arg.operand "f"] =
      ParseResult.continued
        { radius := -1, split_ratio := 2, min_hub_size := 0, verify_graph := true,
          fname := "f" } := by
  rfl

/-- C4 amended: `parse_arguments` checks no numeric parameter at all; every
invocation that supplies a filename and does not request the help message
continues into the build, whatever the values given for `-S`, `-l`, `-r`
and `-G`. -/
theorem c4_no_parameter_validation (args : List Arg)
    (hh : Arg.opth ∉ args) (hop : ∃ s, Arg.operand s ∈ args) :
    parse_continues args = true := by
  obtain ⟨c, hc⟩ := parseLoop_continues args {} [] hh (Or.inr hop)
  unfold parse_continues parse_arguments
  rw [hc]

theorem c4_witness :
    parse_continues [Arg.optS 2, Arg.optl 0, Arg.optR (-1), Arg.optG, Arg.operand "f"]
      = true :=
  c4_no_parameter_validation _ (by decide) ⟨"f", by decide⟩

/-- C5 counterexample: a run with the graph phase enabled and an output
filename parsed from `-o` writes no file at all — `main` in `src/main.cpp`
never reads `tree_fname` and contains no file output — refuting the claim
that the computed epsilon graph is emitted as edge lines. -/
theorem c5_counterexample :
    (runMain (fun _ _ : Unit => (0 : ℚ))
      { radius := 1, build_graph := true, tree_fname := some "tree.out", fname := "f" }
      [()] ⟨true, fun _ => [0]⟩).files = [] := by
  rfl

/-- C5 amended: the shared-memory driver parses `-o` into `tree_fname` but
never uses it; no run of `main` writes any file, and every run returns exit
code 0. -/
theorem c5_no_graph_output {P : Type} [Inhabited P] (dist : P → P → ℚ)
    (cfg : Config) (points : List P) (orc : BuildOracle) :
    (runMain dist cfg points orc).files = [] ∧
      (runMain dist cfg points orc).exitCode = 0 := by
  unfold runMain
  by_cases hb : cfg.build_graph <;> simp [hb]

/-- C6: in a configuration produced by `parse_arguments`, the graph phase
flag `build_graph` is set exactly when the parsed radius is strictly
positive; without `-r` the radius keeps its default `0` and the phase is
disabled; and when the phase is disabled `main` issues no point queries. -/
theorem c6_radius_gates_graph_phase {P : Type} [Inhabited P] (dist : P → P → ℚ)
    (args : List Arg) (cfg : Config) (points : List P) (orc : BuildOracle)
    (hc : parse_arguments args = ParseResult.continued cfg) :
    radius_gates_graph_phase dist args cfg points orc := by
  have hbg : cfg.build_graph = decide (0 < cfg.radius) :=
    parseLoop_continued_build_graph args {} cfg [] hc
  refine ⟨?_, ?_, ?_⟩
  · rw [hbg, decide_eq_true_eq]
  · intro hr0
    have hrad : cfg.radius = 0 := parseLoop_continued_radius args {} cfg [] hr0 hc
    refine ⟨hrad, ?_⟩
    rw [hbg, hrad]
    rfl
  · intro hb
    simp [runMain, hb]

theorem c6_witness :
    radius_gates_graph_phase (fun _ _ : Unit => (0 : ℚ)) [Arg.operand "f"]
      { fname := "f" } ([] : List Unit) ⟨true, fun _ => []⟩ :=
  c6_radius_gates_graph_phase (fun _ _ : Unit => (0 : ℚ)) [Arg.operand "f"]
    { fname := "f" } [] ⟨true, fun _ => []⟩ (by rfl)

/-- C7: every run of `main` returns exit code 0, whatever the verification
outcomes; a requested `-T` or `-G` verification reports its result only as
the `PASSED`/`FAILED` line placed in the normal log output (`treeLine` and
`graphLine` evaluate to the `FAILED` text when the check fails), never
through the exit code. -/
theorem c7_verification_failure_keeps_exit_zero {P : Type} [Inhabited P]
    (dist : P → P → ℚ) (cfg : Config) (points : List P) (orc : BuildOracle) :
    verification_reported_in_log_only dist cfg points orc := by
  unfold verification_reported_in_log_only runMain
  by_cases hb : cfg.build_graph <;> by_cases ht : cfg.verify_tree <;>
    by_cases hg : cfg.verify_graph <;> simp [hb, ht, hg]

end Ipdps
